import Mathlib

/-!
# Wallet exposure advisor — verification of the portfolio pipeline

Shallow embedding of the portfolio aggregation and risk-classification pipeline of the
wallet-exposure-advisor service (`src/lib/agent.ts` handler together with the advisor
module: `categorizeToken`, `calculateRiskLevel`, `analyzePortfolio`, the cross-chain
aggregation loop, `generateAdvice` and `generateFallbackAdvice`).

Modelling conventions:
* JavaScript numbers (`valueUsd`, prices, percentages) are modelled as `ℚ`; the numeric
  literals of the source (`0.01`, `50`, `1e-6`, …) become exact rationals.
* Token balances travel through the pipeline as decimal strings in the source and are
  only ever parsed (`parseFloat`) or re-printed (`toString`); they are modelled by their
  numeric value as `ℚ`.
* The optional `chain` tag of a holding (`chain?: string`) is `Option String`.
* The external LLM call inside `generateAdvice` is an opaque collaborator; its outcome is
  passed in as an `Except` value and the `try/catch` of the source becomes a `match`.
* `generateFallbackAdvice` dereferences `analysis.holdings[0]` in its concentration
  branch; the would-be `TypeError` on an empty list is modelled by an `Option` result.
-/

/-- Token category, from the `PortfolioHolding["category"]` union type of the advisor. -/
inductive Category where
  | native
  | stablecoin
  | defi
  | volatile
  | other
deriving DecidableEq, Repr

/-- Risk tier, from the `PortfolioAnalysis["riskLevel"]` union type of the advisor. -/
inductive RiskLevel where
  | low
  | medium
  | high
  | veryHigh
deriving DecidableEq, Repr

/-- One holding as fed to `analyzePortfolio`: `{ symbol, balance, valueUsd }`. -/
structure InputHolding where
  symbol : String
  balance : ℚ
  valueUsd : ℚ
deriving DecidableEq, Repr

/-- One enriched holding of the analysis result (advisor `PortfolioHolding`). -/
structure PortfolioHolding where
  symbol : String
  balance : ℚ
  valueUsd : ℚ
  percentage : ℚ
  category : Category
deriving DecidableEq, Repr

/-- The analysis record returned by `analyzePortfolio` (advisor `PortfolioAnalysis`
without the `advice` field, which is attached later by the handler). -/
structure PortfolioAnalysis where
  totalValueUsd : ℚ
  holdings : List PortfolioHolding
  riskLevel : RiskLevel
  stablecoinPercentage : ℚ
  volatilePercentage : ℚ
  concentrationRisk : Bool
deriving DecidableEq, Repr

/-- The stablecoin ticker table of `categorizeToken`. -/
def stablecoinSymbols : List String := ["USDC", "USDT", "DAI", "FRAX", "LUSD", "USDbC", "BUSD"]

/-- The native-asset ticker table of `categorizeToken`. -/
def nativeSymbols : List String := ["ETH", "STRK", "BTC", "WBTC", "WETH"]

/-- The DeFi ticker table of `categorizeToken`. -/
def defiSymbols : List String := ["AAVE", "UNI", "LINK", "CRV", "LDO", "ARB", "OP", "MKR", "COMP"]

/-- Embedding of `categorizeToken` from the advisor module: fixed lookup tables with `volatile` as the
default for every unrecognized symbol. Exact, case-sensitive string matching. -/
def categorizeToken (symbol : String) : Category :=
  if symbol ∈ stablecoinSymbols then Category.stablecoin
  else if symbol ∈ nativeSymbols then Category.native
  else if symbol ∈ defiSymbols then Category.defi
  else Category.volatile

/-- Embedding of `calculateRiskLevel` from the advisor module: ordered threshold policy on the
stablecoin percentage and the concentration flag, first match winning. -/
def calculateRiskLevel (stablecoinPct : ℚ) (concentrationRisk : Bool) : RiskLevel :=
  if 50 ≤ stablecoinPct then RiskLevel.low
  else if 30 ≤ stablecoinPct ∧ concentrationRisk = false then RiskLevel.medium
  else if 10 ≤ stablecoinPct then RiskLevel.high
  else RiskLevel.veryHigh

/-- The dust threshold `0.01` USD used by the pipeline's filters. -/
def dustThreshold : ℚ := 1 / 100

/-- The enrichment map of `analyzePortfolio`: percentage against the portfolio total
(0 when the total is not positive) and category lookup. -/
def enrichHolding (totalValueUsd : ℚ) (h : InputHolding) : PortfolioHolding :=
  { symbol := h.symbol
    balance := h.balance
    valueUsd := h.valueUsd
    percentage := if 0 < totalValueUsd then h.valueUsd / totalValueUsd * 100 else 0
    category := categorizeToken h.symbol }

/-- Embedding of `analyzePortfolio` from the advisor module: total over the raw input, dust filter,
enrichment, stable descending sort by `valueUsd`, stablecoin/volatile split,
concentration flag and risk level. -/
def analyzePortfolio (holdings : List InputHolding) : PortfolioAnalysis :=
  let totalValueUsd : ℚ := (holdings.map (fun h => h.valueUsd)).sum
  let enrichedHoldings : List PortfolioHolding :=
    ((holdings.filter (fun h => decide (dustThreshold < h.valueUsd))).map
        (enrichHolding totalValueUsd)).mergeSort
      (fun a b => decide (b.valueUsd ≤ a.valueUsd))
  let stablecoinPercentage : ℚ :=
    ((enrichedHoldings.filter (fun h => decide (h.category = Category.stablecoin))).map
      (fun h => h.percentage)).sum
  let volatilePercentage : ℚ :=
    ((enrichedHoldings.filter (fun h => decide (h.category ≠ Category.stablecoin))).map
      (fun h => h.percentage)).sum
  let concentrationRisk : Bool := enrichedHoldings.any (fun h => decide (50 < h.percentage))
  { totalValueUsd := totalValueUsd
    holdings := enrichedHoldings
    riskLevel := calculateRiskLevel stablecoinPercentage concentrationRisk
    stablecoinPercentage := stablecoinPercentage
    volatilePercentage := volatilePercentage
    concentrationRisk := concentrationRisk }

/-- A per-chain holding as accumulated by the `analyze-wallet` handler before the
cross-chain aggregation loop: `{ symbol, balance, valueUsd, chain? }`. -/
structure ChainHolding where
  symbol : String
  balance : ℚ
  valueUsd : ℚ
  chain : Option String
deriving DecidableEq, Repr

/-- One entry of the handler's `aggregatedHoldings` map. -/
structure AggregatedHolding where
  symbol : String
  balance : ℚ
  valueUsd : ℚ
  chains : List String
deriving DecidableEq, Repr

/-- The chain-list update of the aggregation loop: push the holding's chain tag when it
is present and not already recorded. -/
def addChain (chains : List String) : Option String → List String
  | some c => if c ∈ chains then chains else chains ++ [c]
  | none => chains

/-- One iteration of the handler's aggregation loop over the `aggregatedHoldings` map
(JavaScript `Map` iteration preserves insertion order, so the map is a list of rows with
pairwise distinct symbols): an existing row with the holding's symbol is updated in
place, otherwise a fresh row is appended. -/
def aggregateStep (acc : List AggregatedHolding) (h : ChainHolding) : List AggregatedHolding :=
  if acc.any (fun a => decide (a.symbol = h.symbol)) then
    acc.map (fun a =>
      if a.symbol = h.symbol then
        { a with
            balance := a.balance + h.balance
            valueUsd := a.valueUsd + h.valueUsd
            chains := addChain a.chains h.chain }
      else a)
  else
    acc ++ [{ symbol := h.symbol
              balance := h.balance
              valueUsd := h.valueUsd
              chains := match h.chain with | some c => [c] | none => [] }]

/-- The handler's cross-chain aggregation: fold the loop over the concatenated holdings
list, starting from an empty map. -/
def aggregatedHoldings (holdings : List ChainHolding) : List AggregatedHolding :=
  holdings.foldl aggregateStep []

/-- The display symbol of a final row: the ticker with the joined chain list appended
when more than one chain contributed. -/
def finalSymbol (h : AggregatedHolding) : String :=
  if 1 < h.chains.length then
    h.symbol ++ " (" ++ String.intercalate "+" h.chains ++ ")"
  else h.symbol

/-- The handler's `finalHoldings` conversion from aggregated rows back to the plain
holding shape handed to `analyzePortfolio`. -/
def finalHoldings (rows : List AggregatedHolding) : List InputHolding :=
  rows.map (fun h => { symbol := finalSymbol h, balance := h.balance, valueUsd := h.valueUsd })

/-- Raw per-token data of the starknet balance source: address, ticker and the decimal
balance (`formattedBalance`, modelled by its numeric value). -/
structure StarknetToken where
  address : String
  symbol : String
  formattedBalance : ℚ
deriving DecidableEq, Repr

/-- Price resolution of the handler's starknet branch: ETH at the supplied ETH price,
recognized stablecoins pinned at 1, otherwise the oracle map keyed by lowercased token
address with 0 for an absent price. -/
def starknetTokenPrice (ethPrice : ℚ) (tokenPrices : String → Option ℚ)
    (token : StarknetToken) : ℚ :=
  if token.symbol = "ETH" then ethPrice
  else if token.symbol ∈ (["USDC", "USDT", "DAI"] : List String) then 1
  else (tokenPrices token.address.toLower).getD 0

/-- The starknet-only branch of the `analyze-wallet` handler: every token balance is
mapped to a holding (no dust filter and no chain tag on this path) and the resulting
list is fed directly to the aggregation loop. -/
def starknetBranchHoldings (ethPrice : ℚ) (tokenPrices : String → Option ℚ)
    (tokens : List StarknetToken) : List ChainHolding :=
  tokens.map (fun token =>
    { symbol := token.symbol
      balance := token.formattedBalance
      valueUsd := token.formattedBalance * starknetTokenPrice ethPrice tokenPrices token
      chain := none })

/-- Raw per-token data of an EVM balance source entry. -/
structure EVMToken where
  address : String
  symbol : String
  formattedBalance : ℚ
deriving DecidableEq, Repr

/-- Price resolution of `processEVMBalances`: pinned stablecoins at 1, WETH at the ETH
price, hard-coded ARB and HYPE approximations, 0 otherwise. -/
def evmTokenPrice (ethPrice : ℚ) (token : EVMToken) : ℚ :=
  if token.symbol ∈ (["USDC", "USDT", "DAI", "USDbC"] : List String) then 1
  else if token.symbol = "WETH" then ethPrice
  else if token.symbol = "ARB" then 35 / 100
  else if token.symbol = "HYPE" then 20
  else 0

/-- Embedding of `processEVMBalances` from the handler: the native ETH balance and each token balance
is priced, and only entries whose USD value exceeds the dust threshold are pushed, each
tagged with the chain label. This runs before the aggregation loop. -/
def processEVMBalances (nativeBalance : ℚ) (tokens : List EVMToken) (ethPrice : ℚ)
    (chainLabel : String) : List ChainHolding :=
  (if dustThreshold < nativeBalance * ethPrice then
    [{ symbol := "ETH", balance := nativeBalance, valueUsd := nativeBalance * ethPrice
       chain := some chainLabel }]
   else []) ++
  tokens.filterMap (fun token =>
    let valueUsd := token.formattedBalance * evmTokenPrice ethPrice token
    if dustThreshold < valueUsd then
      some { symbol := token.symbol, balance := token.formattedBalance, valueUsd := valueUsd
             chain := some chainLabel }
    else none)

/-- Decimal rendering with one digit after the point, modelling the
`Number.prototype.toFixed(1)` display call inside the fallback advice template. No claim
depends on the rendered digits, only on the surrounding template text. -/
def toFixed1 (q : ℚ) : String :=
  let n : Int := round (q * 10)
  toString (n / 10) ++ "." ++ toString (n % 10).natAbs

/-- The per-tier risk-assessment opening line of `generateFallbackAdvice` (the source
selects it by an if/else-if chain on the risk level string). -/
def riskAssessmentLine (riskLevel : RiskLevel) : String :=
  if riskLevel = RiskLevel.veryHigh then
    "⚠️ **High Risk Portfolio**: Your exposure to volatile assets is significant with minimal stablecoin buffer."
  else if riskLevel = RiskLevel.high then
    "⚡ **Elevated Risk**: Consider increasing stablecoin allocation to reduce volatility impact."
  else if riskLevel = RiskLevel.medium then
    "📊 **Balanced Risk**: Your portfolio has reasonable diversification but could be optimized."
  else
    "🛡️ **Conservative Portfolio**: Strong stablecoin position provides good downside protection."

/-- The concentration-alert line of `generateFallbackAdvice`, built from the top holding
(`analysis.holdings[0]`). -/
def concentrationAlertLine (topHolding : PortfolioHolding) : String :=
  "\n🎯 **Concentration Alert**: " ++ topHolding.symbol ++ " represents " ++
    toFixed1 topHolding.percentage ++
    "% of your portfolio. Consider diversifying to reduce single-asset risk."

/-- The suggested-allocation section of `generateFallbackAdvice`. -/
def allocationLines (analysis : PortfolioAnalysis) : List String :=
  ["\n**Suggested Allocation:**"] ++
  (if analysis.stablecoinPercentage < 20 then
    ["- Increase stablecoins to 20-30% for market volatility protection"]
   else []) ++
  (if 80 < analysis.volatilePercentage then
    ["- Reduce volatile asset exposure to ~70% maximum"]
   else [])

/-- The action-items section of `generateFallbackAdvice`. -/
def actionItemLines (analysis : PortfolioAnalysis) : List String :=
  ["\n**Action Items:**",
   "- Set stop-losses on volatile positions",
   "- Consider DCA (Dollar Cost Average) for new entries"] ++
  (if 10000 < analysis.totalValueUsd then
    ["- Review security: hardware wallet recommended for this portfolio size"]
   else [])

/-- Embedding of the fallback composer's final join with newline separators. -/
def joinLines : List String → String
  | [] => ""
  | [line] => line
  | line :: rest => line ++ "\n" ++ joinLines rest

/-- Embedding of `generateFallbackAdvice` from the advisor module. In the concentration branch the
source dereferences `analysis.holdings[0].symbol`; on an empty holdings list that is a
runtime `TypeError`, modelled here as `none`. -/
def generateFallbackAdvice (analysis : PortfolioAnalysis) : Option String :=
  let assessment := riskAssessmentLine analysis.riskLevel
  if analysis.concentrationRisk then
    match analysis.holdings with
    | [] => none
    | topHolding :: _ =>
        some (joinLines ([assessment, concentrationAlertLine topHolding] ++
          allocationLines analysis ++ actionItemLines analysis))
  else
    some (joinLines ([assessment] ++ allocationLines analysis ++ actionItemLines analysis))

/-- Embedding of `generateAdvice` from the advisor module. The external text-generation call is an
opaque collaborator whose outcome is passed in as an `Except` value; the source's
`try/catch` returns the generated text verbatim on success and falls back to the
deterministic composer on any error. The chain label only feeds the prompt of the
external call. -/
def generateAdvice (llmOutcome : Except String String) (chainLabel : String)
    (analysis : PortfolioAnalysis) : Option String :=
  match llmOutcome with
  | Except.ok text => some text
  | Except.error _ => generateFallbackAdvice analysis

/-- The constituent entries of a symbol inside a concatenated holdings list. -/
def constituents (s : String) (holdings : List ChainHolding) : List ChainHolding :=
  holdings.filter (fun h => decide (h.symbol = s))

/-- The chain tags contributed by a list of entries, in order of first appearance. -/
def chainsInOrder (entries : List ChainHolding) : List String :=
  entries.foldl (fun acc h => addChain acc h.chain) []

/-- Append a symbol to an accumulator unless it is already present. -/
def addSymbol (acc : List String) (s : String) : List String :=
  if s ∈ acc then acc else acc ++ [s]

/-- The distinct symbols of a holdings list, in order of first appearance. -/
def symbolsInOrder (holdings : List ChainHolding) : List String :=
  holdings.foldl (fun acc h => addSymbol acc h.symbol) []

/-! ## Generic list lemmas -/

/-- List `any` is invariant under permutation. -/
theorem perm_any_eq {α : Type} {l₁ l₂ : List α} (h : l₁.Perm l₂) (p : α → Bool) :
    l₁.any p = l₂.any p := by
  cases hb : l₂.any p
  · rw [List.any_eq_false] at hb ⊢
    intro x hx
    exact hb x (h.mem_iff.mp hx)
  · rw [List.any_eq_true] at hb ⊢
    obtain ⟨x, hx, hpx⟩ := hb
    exact ⟨x, h.mem_iff.mpr hx, hpx⟩

/-- Dropping entries whose value is zero does not change the mapped sum. -/
theorem sum_map_filter_of_zero {α : Type} (p : α → Bool) (v : α → ℚ) :
    ∀ l : List α, (∀ x ∈ l, p x = false → v x = 0) →
      ((l.filter p).map v).sum = (l.map v).sum := by
  intro l
  induction l with
  | nil => intro _; rfl
  | cons x xs ih =>
    intro hz
    by_cases hx : p x = true
    · simp [List.filter_cons, hx, ih fun y hy => hz y (List.mem_cons_of_mem x hy)]
    · have hx0 : v x = 0 := hz x (List.mem_cons_self x xs) (Bool.eq_false_iff.mpr hx)
      simp [List.filter_cons, hx, hx0, ih fun y hy => hz y (List.mem_cons_of_mem x hy)]

/-- A mapped sum splits along a Boolean predicate. -/
theorem sum_map_filter_add_not {α : Type} (p : α → Bool) (v : α → ℚ) :
    ∀ l : List α,
      ((l.filter p).map v).sum + ((l.filter (fun x => !(p x))).map v).sum = (l.map v).sum := by
  intro l
  induction l with
  | nil => simp
  | cons x xs ih =>
    by_cases hx : p x = true
    · simp only [List.filter_cons, hx]
      simp only [List.map_cons, List.sum_cons, Bool.not_true, Bool.false_eq_true, if_false,
        if_true]
      rw [add_assoc, ih]
    · have hx' : p x = false := Bool.eq_false_iff.mpr hx
      simp only [List.filter_cons, hx']
      simp only [List.map_cons, List.sum_cons, Bool.not_false, Bool.false_eq_true, if_false,
        if_true]
      rw [add_left_comm, ih]

/-- Summing `x / t * c` over a list equals the summed list divided and scaled. -/
theorem sum_map_div_mul (t c : ℚ) : ∀ l : List ℚ,
    (l.map (fun x => x / t * c)).sum = l.sum / t * c := by
  intro l
  induction l with
  | nil => simp
  | cons x xs ih => simp [ih, add_div, add_mul]

/-! ## `analyzePortfolio` field characterizations

The sort of `analyzePortfolio` is a stable merge sort; all field values are invariant
under the permutation it performs, which lets every field be read off the pre-sort list.
-/

/-- The enriched holdings list of `analyzePortfolio` before sorting. -/
def preSortHoldings (hs : List InputHolding) : List PortfolioHolding :=
  (hs.filter (fun h => decide (dustThreshold < h.valueUsd))).map
    (enrichHolding ((hs.map (fun h => h.valueUsd)).sum))

theorem analyzePortfolio_totalValueUsd (hs : List InputHolding) :
    (analyzePortfolio hs).totalValueUsd = (hs.map (fun h => h.valueUsd)).sum := rfl

theorem analyzePortfolio_holdings_eq (hs : List InputHolding) :
    (analyzePortfolio hs).holdings =
      (preSortHoldings hs).mergeSort (fun a b => decide (b.valueUsd ≤ a.valueUsd)) := rfl

theorem analyzePortfolio_holdings_perm (hs : List InputHolding) :
    (analyzePortfolio hs).holdings.Perm (preSortHoldings hs) := by
  rw [analyzePortfolio_holdings_eq]
  exact List.mergeSort_perm _ _

theorem analyzePortfolio_riskLevel (hs : List InputHolding) :
    (analyzePortfolio hs).riskLevel =
      calculateRiskLevel (analyzePortfolio hs).stablecoinPercentage
        (analyzePortfolio hs).concentrationRisk := rfl

theorem analyzePortfolio_concentrationRisk (hs : List InputHolding) :
    (analyzePortfolio hs).concentrationRisk =
      (preSortHoldings hs).any (fun h => decide (50 < h.percentage)) :=
  perm_any_eq (analyzePortfolio_holdings_perm hs) _

theorem analyzePortfolio_stablecoinPercentage (hs : List InputHolding) :
    (analyzePortfolio hs).stablecoinPercentage =
      (((preSortHoldings hs).filter (fun h => decide (h.category = Category.stablecoin))).map
        (fun h => h.percentage)).sum :=
  ((((analyzePortfolio_holdings_perm hs).filter _).map _).sum_eq : _)

theorem analyzePortfolio_volatilePercentage (hs : List InputHolding) :
    (analyzePortfolio hs).volatilePercentage =
      (((preSortHoldings hs).filter (fun h => decide (h.category ≠ Category.stablecoin))).map
        (fun h => h.percentage)).sum :=
  ((((analyzePortfolio_holdings_perm hs).filter _).map _).sum_eq : _)

theorem analyzePortfolio_pctSum (hs : List InputHolding) :
    ((analyzePortfolio hs).holdings.map (fun h => h.percentage)).sum =
      ((preSortHoldings hs).map (fun h => h.percentage)).sum :=
  (((analyzePortfolio_holdings_perm hs).map _).sum_eq : _)

theorem mem_analyzePortfolio_holdings {hs : List InputHolding} {h : PortfolioHolding} :
    h ∈ (analyzePortfolio hs).holdings ↔
      ∃ h0 ∈ hs, dustThreshold < h0.valueUsd ∧
        h = enrichHolding ((hs.map (fun h => h.valueUsd)).sum) h0 := by
  rw [(analyzePortfolio_holdings_perm hs).mem_iff]
  simp only [preSortHoldings, List.mem_map, List.mem_filter, decide_eq_true_eq]
  constructor
  · rintro ⟨h0, ⟨hmem, hdust⟩, rfl⟩
    exact ⟨h0, hmem, hdust, rfl⟩
  · rintro ⟨h0, hmem, hdust, rfl⟩
    exact ⟨h0, ⟨hmem, hdust⟩, rfl⟩

/-- Every reported holding survived the dust filter. -/
theorem analyzePortfolio_holdings_dust {hs : List InputHolding} {h : PortfolioHolding}
    (hmem : h ∈ (analyzePortfolio hs).holdings) : dustThreshold < h.valueUsd := by
  obtain ⟨h0, _, hdust, rfl⟩ := mem_analyzePortfolio_holdings.mp hmem
  exact hdust

/-- Every reported holding's percentage is its value against the pre-filter total
(zero when the total is not positive). -/
theorem analyzePortfolio_holdings_percentage {hs : List InputHolding} {h : PortfolioHolding}
    (hmem : h ∈ (analyzePortfolio hs).holdings) :
    h.percentage =
      if 0 < (analyzePortfolio hs).totalValueUsd then
        h.valueUsd / (analyzePortfolio hs).totalValueUsd * 100
      else 0 := by
  obtain ⟨h0, _, _, rfl⟩ := mem_analyzePortfolio_holdings.mp hmem
  rfl

/-- The holdings list is sorted descending by `valueUsd`. -/
theorem analyzePortfolio_holdings_sorted (hs : List InputHolding) :
    (analyzePortfolio hs).holdings.Pairwise (fun a b => b.valueUsd ≤ a.valueUsd) := by
  rw [analyzePortfolio_holdings_eq]
  have hp := @List.sorted_mergeSort PortfolioHolding
    (fun a b : PortfolioHolding => decide (b.valueUsd ≤ a.valueUsd))
    (fun a b c hab hbc => by
      simp only [decide_eq_true_eq] at hab hbc ⊢
      exact le_trans hbc hab)
    (fun a b => by
      simp only [Bool.or_eq_true, decide_eq_true_eq]
      exact le_total b.valueUsd a.valueUsd)
    (preSortHoldings hs)
  exact hp.imp (fun hab => of_decide_eq_true hab)

/-! ## Cross-chain aggregation characterization -/

theorem aggregatedHoldings_append_single (l : List ChainHolding) (h : ChainHolding) :
    aggregatedHoldings (l ++ [h]) = aggregateStep (aggregatedHoldings l) h := by
  simp [aggregatedHoldings, List.foldl_append]

theorem symbolsInOrder_append_single (l : List ChainHolding) (h : ChainHolding) :
    symbolsInOrder (l ++ [h]) = addSymbol (symbolsInOrder l) h.symbol := by
  simp [symbolsInOrder, List.foldl_append]

theorem chainsInOrder_append_single (l : List ChainHolding) (h : ChainHolding) :
    chainsInOrder (l ++ [h]) = addChain (chainsInOrder l) h.chain := by
  simp [chainsInOrder, List.foldl_append]

theorem chainsInOrder_singleton (h : ChainHolding) :
    chainsInOrder [h] = addChain [] h.chain := rfl

theorem constituents_append_single (s : String) (l : List ChainHolding) (h : ChainHolding) :
    constituents s (l ++ [h]) =
      constituents s l ++ (if h.symbol = s then [h] else []) := by
  by_cases h1 : h.symbol = s <;> simp [constituents, List.filter_append, h1]

theorem mem_addSymbol {x s : String} {acc : List String} :
    x ∈ addSymbol acc s ↔ x ∈ acc ∨ x = s := by
  by_cases hs : s ∈ acc
  · simp only [addSymbol, if_pos hs]
    constructor
    · exact Or.inl
    · rintro (hx | rfl)
      · exact hx
      · exact hs
  · simp [addSymbol, hs]

theorem mem_symbolsInOrder_aux {s : String} :
    ∀ (l : List ChainHolding) (acc : List String),
      s ∈ l.foldl (fun acc h => addSymbol acc h.symbol) acc ↔
        s ∈ acc ∨ ∃ h ∈ l, h.symbol = s := by
  intro l
  induction l with
  | nil => simp
  | cons x xs ih =>
    intro acc
    rw [List.foldl_cons, ih, mem_addSymbol]
    constructor
    · rintro ((hacc | rfl) | ⟨h, hmem, rfl⟩)
      · exact Or.inl hacc
      · exact Or.inr ⟨x, List.mem_cons_self x xs, rfl⟩
      · exact Or.inr ⟨h, List.mem_cons_of_mem x hmem, rfl⟩
    · rintro (hacc | ⟨h, hmem, rfl⟩)
      · exact Or.inl (Or.inl hacc)
      · rcases List.mem_cons.mp hmem with rfl | hmem'
        · exact Or.inl (Or.inr rfl)
        · exact Or.inr ⟨h, hmem', rfl⟩

theorem mem_symbolsInOrder {s : String} {l : List ChainHolding} :
    s ∈ symbolsInOrder l ↔ ∃ h ∈ l, h.symbol = s := by
  rw [symbolsInOrder, mem_symbolsInOrder_aux]
  simp

theorem constituents_eq_nil {s : String} {l : List ChainHolding}
    (hno : ∀ h ∈ l, h.symbol ≠ s) : constituents s l = [] := by
  rw [constituents, List.filter_eq_nil_iff]
  intro h hmem
  simp [hno h hmem]

/-- Full characterization of the aggregation loop: row symbols are the input symbols in
first-appearance order, and each row carries the summed balance and USD value of its
constituent entries together with their chain tags in first-appearance order. -/
theorem aggregatedHoldings_char (holdings : List ChainHolding) :
    (aggregatedHoldings holdings).map (fun a => a.symbol) = symbolsInOrder holdings ∧
    ∀ a ∈ aggregatedHoldings holdings,
      a.balance = ((constituents a.symbol holdings).map (fun h => h.balance)).sum ∧
      a.valueUsd = ((constituents a.symbol holdings).map (fun h => h.valueUsd)).sum ∧
      a.chains = chainsInOrder (constituents a.symbol holdings) := by
  induction holdings using List.reverseRecOn with
  | nil => exact ⟨rfl, by simp [aggregatedHoldings]⟩
  | append_singleton l h ih =>
    obtain ⟨ihsym, ihrows⟩ := ih
    rw [aggregatedHoldings_append_single, symbolsInOrder_append_single]
    by_cases hmem : (aggregatedHoldings l).any (fun a => decide (a.symbol = h.symbol)) = true
    · -- the symbol already has a row: that row is updated in place
      have hsymmem : h.symbol ∈ symbolsInOrder l := by
        rw [← ihsym]
        rw [List.any_eq_true] at hmem
        obtain ⟨a, ha, haeq⟩ := hmem
        simp only [decide_eq_true_eq] at haeq
        exact List.mem_map.mpr ⟨a, ha, haeq⟩
      rw [aggregateStep, if_pos hmem]
      constructor
      · rw [addSymbol, if_pos hsymmem, ← ihsym, List.map_map]
        apply List.map_congr_left
        intro a _
        by_cases h1 : a.symbol = h.symbol <;> simp [h1]
      · intro a' ha'
        rw [List.mem_map] at ha'
        obtain ⟨a, ha, rfl⟩ := ha'
        obtain ⟨ihb, ihv, ihc⟩ := ihrows a ha
        by_cases h1 : a.symbol = h.symbol
        · rw [if_pos h1]
          refine ⟨?_, ?_, ?_⟩
          · show a.balance + h.balance = _
            rw [constituents_append_single, if_pos h1.symm, List.map_append,
              List.sum_append, ihb]
            simp
          · show a.valueUsd + h.valueUsd = _
            rw [constituents_append_single, if_pos h1.symm, List.map_append,
              List.sum_append, ihv]
            simp
          · show addChain a.chains h.chain = _
            rw [constituents_append_single, if_pos h1.symm, chainsInOrder_append_single,
              ihc]
        · rw [if_neg h1]
          rw [constituents_append_single, if_neg (fun hc => h1 hc.symm)]
          simpa using ⟨ihb, ihv, ihc⟩
    · -- fresh symbol: a new row is appended
      have hsymnot : h.symbol ∉ symbolsInOrder l := by
        rw [← ihsym]
        intro hc
        obtain ⟨a, ha, haeq⟩ := List.mem_map.mp hc
        exact hmem (List.any_eq_true.mpr ⟨a, ha, decide_eq_true haeq⟩)
      have hnocon : ∀ h' ∈ l, h'.symbol ≠ h.symbol := by
        intro h' hmem' hceq
        exact hsymnot (mem_symbolsInOrder.mpr ⟨h', hmem', hceq⟩)
      rw [aggregateStep, if_neg hmem]
      constructor
      · rw [List.map_append, ihsym, addSymbol, if_neg hsymnot]
        rfl
      · intro a' ha'
        rcases List.mem_append.mp ha' with ha | hnew
        · have hne : a'.symbol ≠ h.symbol := by
            intro hceq
            exact hsymnot (by rw [← ihsym]; exact hceq ▸ List.mem_map.mpr ⟨a', ha, rfl⟩)
          rw [constituents_append_single, if_neg (fun hc => hne hc.symm)]
          simpa using ihrows a' ha
        · have ha'' : a' = { symbol := h.symbol, balance := h.balance, valueUsd := h.valueUsd
                             chains := match h.chain with | some c => [c] | none => [] } := by
            simpa using hnew
          subst ha''
          have hnil : constituents h.symbol l = [] := constituents_eq_nil hnocon
          refine ⟨?_, ?_, ?_⟩
          · show h.balance = _
            rw [constituents_append_single, if_pos rfl, hnil]
            simp
          · show h.valueUsd = _
            rw [constituents_append_single, if_pos rfl, hnil]
            simp
          · show _ = chainsInOrder _
            rw [constituents_append_single, if_pos rfl, hnil, List.nil_append,
              chainsInOrder_singleton]
            cases hc : h.chain <;> simp [addChain]

theorem addChain_ne_nil {acc : List String} {oc : Option String} (hacc : acc ≠ []) :
    addChain acc oc ≠ [] := by
  cases oc with
  | none => exact hacc
  | some c =>
    by_cases hc : c ∈ acc
    · simpa [addChain, hc] using hacc
    · simp [addChain, hc]

theorem foldl_addChain_ne_nil :
    ∀ (l : List ChainHolding) (acc : List String), acc ≠ [] →
      l.foldl (fun acc h => addChain acc h.chain) acc ≠ [] := by
  intro l
  induction l with
  | nil => exact fun acc hacc => hacc
  | cons x xs ih =>
    intro acc hacc
    rw [List.foldl_cons]
    exact ih _ (addChain_ne_nil hacc)

/-- The chain list of a non-empty, fully tagged entry list is non-empty. -/
theorem chainsInOrder_ne_nil {l : List ChainHolding}
    (hall : ∀ h ∈ l, h.chain.isSome) (hne : l ≠ []) : chainsInOrder l ≠ [] := by
  cases l with
  | nil => exact absurd rfl hne
  | cons x xs =>
    obtain ⟨c, hc⟩ := Option.isSome_iff_exists.mp (hall x (List.mem_cons_self x xs))
    rw [chainsInOrder, List.foldl_cons, hc]
    exact foldl_addChain_ne_nil xs _ (by simp [addChain])

theorem foldl_addChain_const (c : String) :
    ∀ (l : List ChainHolding), (∀ h ∈ l, h.chain = some c) →
      l.foldl (fun acc h => addChain acc h.chain) [c] = [c] := by
  intro l
  induction l with
  | nil => intro _; rfl
  | cons x xs ih =>
    intro hall
    rw [List.foldl_cons, hall x (List.mem_cons_self x xs)]
    have : addChain [c] (some c) = [c] := by simp [addChain]
    rw [this]
    exact ih fun h hmem => hall h (List.mem_cons_of_mem x hmem)

/-- The chain list of a non-empty entry list all tagged with the same chain is exactly
that single chain. -/
theorem chainsInOrder_const {c : String} {l : List ChainHolding}
    (hall : ∀ h ∈ l, h.chain = some c) (hne : l ≠ []) : chainsInOrder l = [c] := by
  cases l with
  | nil => exact absurd rfl hne
  | cons x xs =>
    rw [chainsInOrder, List.foldl_cons, hall x (List.mem_cons_self x xs)]
    have : addChain [] (some c) = [c] := by simp [addChain]
    rw [this]
    exact foldl_addChain_const c xs fun h hmem => hall h (List.mem_cons_of_mem x hmem)

/-- Every aggregated row has at least one constituent entry. -/
theorem constituents_ne_nil_of_mem {holdings : List ChainHolding} {a : AggregatedHolding}
    (ha : a ∈ aggregatedHoldings holdings) : constituents a.symbol holdings ≠ [] := by
  have hsym : a.symbol ∈ symbolsInOrder holdings := by
    rw [← (aggregatedHoldings_char holdings).1]
    exact List.mem_map.mpr ⟨a, ha, rfl⟩
  obtain ⟨h, hmem, heq⟩ := mem_symbolsInOrder.mp hsym
  exact List.ne_nil_of_mem (List.mem_filter.mpr ⟨hmem, decide_eq_true heq⟩)

theorem mem_constituents {s : String} {l : List ChainHolding} {h : ChainHolding} :
    h ∈ constituents s l ↔ h ∈ l ∧ h.symbol = s := by
  simp [constituents, List.mem_filter]

/-! ## Claim theorems: cross-chain aggregation (C2, C7) -/

/-- Claim C2, counterexample: the starknet-only branch of the handler builds holdings
without a chain tag and feeds them to the aggregation loop, so an aggregated row's list
of contributing chains can be empty — refuting the unrestricted non-emptiness claim. -/
theorem aggregation_chains_empty_counterexample :
    (aggregatedHoldings [⟨"ETH", 1, 100, none⟩]).map (fun a => a.chains) = [[]] ∧
    ∃ a ∈ aggregatedHoldings [⟨"ETH", 1, 100, none⟩], a.chains = [] := by
  constructor <;> simp [aggregatedHoldings, aggregateStep]

/-- Claim C2, amended: every aggregated row's USD value is the sum of its constituents'
values, its chain list records the constituents' chain tags in first-appearance order
and is non-empty whenever every input entry carries a chain tag; and on the concrete
USDC-on-ethereum/USDC-on-base input the merged row has value 150 and contributing
chains `["ethereum", "base"]`. -/
theorem aggregation_merge_invariants :
    (∀ (holdings : List ChainHolding), ∀ a ∈ aggregatedHoldings holdings,
        a.valueUsd = ((constituents a.symbol holdings).map (fun h => h.valueUsd)).sum ∧
        a.chains = chainsInOrder (constituents a.symbol holdings)) ∧
    (∀ (holdings : List ChainHolding), (∀ h ∈ holdings, h.chain.isSome) →
        ∀ a ∈ aggregatedHoldings holdings, a.chains ≠ []) ∧
    (aggregatedHoldings
        [⟨"USDC", 100, 100, some "ethereum"⟩, ⟨"USDC", 50, 50, some "base"⟩]).map
      (fun a => (a.symbol, a.valueUsd, a.chains)) = [("USDC", 150, ["ethereum", "base"])] := by
  refine ⟨?_, ?_, ?_⟩
  · intro holdings a ha
    obtain ⟨_, hv, hc⟩ := (aggregatedHoldings_char holdings).2 a ha
    exact ⟨hv, hc⟩
  · intro holdings htag a ha
    obtain ⟨_, _, hc⟩ := (aggregatedHoldings_char holdings).2 a ha
    rw [hc]
    exact chainsInOrder_ne_nil
      (fun h hmem => htag h (mem_constituents.mp hmem).1)
      (constituents_ne_nil_of_mem ha)
  · norm_num [aggregatedHoldings, aggregateStep, addChain]
    decide

/-- Claim C2, witness: the tagged-input hypothesis of the amended claim discharged on a
concrete two-entry input. -/
theorem aggregation_merge_invariants_witness :
    (aggregatedHoldings [⟨"USDC", 100, (100 : ℚ), some "ethereum"⟩,
        ⟨"USDC", 50, 50, some "base"⟩]).map (fun a => a.chains) ≠ [[]] := by
  have hrow := aggregation_merge_invariants.2.1
    [⟨"USDC", 100, (100 : ℚ), some "ethereum"⟩, ⟨"USDC", 50, 50, some "base"⟩]
    (by simp)
  intro hcontra
  have : ∃ a ∈ aggregatedHoldings [⟨"USDC", 100, (100 : ℚ), some "ethereum"⟩,
      ⟨"USDC", 50, 50, some "base"⟩], a.chains = [] := by
    have := congrArg (fun l => [] ∈ l) hcontra
    simp only [List.mem_map, eq_iff_iff] at this
    obtain ⟨a, ha, hc⟩ := this.mpr (by simp)
    exact ⟨a, ha, hc⟩
  obtain ⟨a, ha, hc⟩ := this
  exact hrow a ha hc

/-- Claim C7: on a holdings list whose entries all carry the same single chain tag,
aggregation preserves the per-symbol totals (balance and USD value, summed over each
symbol's constituents), keeps the symbols in first-appearance order, and every row's
contributing-chain set is exactly that single chain. -/
theorem aggregation_single_chain (holdings : List ChainHolding) (c : String)
    (hchain : ∀ h ∈ holdings, h.chain = some c) :
    (aggregatedHoldings holdings).map (fun a => a.symbol) = symbolsInOrder holdings ∧
    ∀ a ∈ aggregatedHoldings holdings,
      a.balance = ((constituents a.symbol holdings).map (fun h => h.balance)).sum ∧
      a.valueUsd = ((constituents a.symbol holdings).map (fun h => h.valueUsd)).sum ∧
      a.chains = [c] := by
  obtain ⟨hsym, hrows⟩ := aggregatedHoldings_char holdings
  refine ⟨hsym, fun a ha => ?_⟩
  obtain ⟨hb, hv, hc⟩ := hrows a ha
  refine ⟨hb, hv, ?_⟩
  rw [hc]
  exact chainsInOrder_const
    (fun h hmem => hchain h (mem_constituents.mp hmem).1)
    (constituents_ne_nil_of_mem ha)

/-- Claim C7, witness: the same-chain hypothesis discharged on a concrete single-chain
two-symbol input. -/
theorem aggregation_single_chain_witness :
    (aggregatedHoldings [⟨"ETH", 1, (100 : ℚ), some "base"⟩,
        ⟨"USDC", 2, 50, some "base"⟩]).map (fun a => a.symbol) =
      symbolsInOrder [⟨"ETH", 1, (100 : ℚ), some "base"⟩, ⟨"USDC", 2, 50, some "base"⟩] :=
  (aggregation_single_chain _ "base" (by simp)).1

/-! ## Claim theorems: percentage arithmetic (C1, C9) -/

theorem analyzePortfolio_valueSum (hs : List InputHolding) :
    ((analyzePortfolio hs).holdings.map (fun h => h.valueUsd)).sum =
      ((hs.filter (fun h => decide (dustThreshold < h.valueUsd))).map
        (fun h => h.valueUsd)).sum := by
  have hperm := ((analyzePortfolio_holdings_perm hs).map (fun h => h.valueUsd)).sum_eq
  rw [hperm, preSortHoldings, List.map_map]
  rfl

/-- Claim C1, counterexample: `analyzePortfolio` computes the total before the dust
filter, so a positive dust entry (here `0.005` USD next to a 100 USD holding) makes the
retained percentages sum to strictly less than `100 - 1e-6`, refuting both tolerance
claims on a non-empty input with positive total. -/
theorem percentage_sum_dust_counterexample :
    ([⟨"ETH", 1, 100⟩, ⟨"PEPE", 1, 1 / 200⟩] : List InputHolding) ≠ [] ∧
    0 < (analyzePortfolio [⟨"ETH", 1, 100⟩, ⟨"PEPE", 1, 1 / 200⟩]).totalValueUsd ∧
    ¬ |((analyzePortfolio [⟨"ETH", 1, 100⟩, ⟨"PEPE", 1, 1 / 200⟩]).holdings.map
        (fun h => h.percentage)).sum - 100| ≤ 1 / 1000000 ∧
    ¬ |(analyzePortfolio [⟨"ETH", 1, 100⟩, ⟨"PEPE", 1, 1 / 200⟩]).stablecoinPercentage +
        (analyzePortfolio [⟨"ETH", 1, 100⟩, ⟨"PEPE", 1, 1 / 200⟩]).volatilePercentage
        - 100| ≤ 1 / 1000000 := by
  refine ⟨by simp, ?_, ?_, ?_⟩
  · rw [analyzePortfolio_totalValueUsd]
    norm_num
  · rw [analyzePortfolio_pctSum]
    norm_num [preSortHoldings, enrichHolding, dustThreshold, abs_le]
  · rw [analyzePortfolio_stablecoinPercentage, analyzePortfolio_volatilePercentage]
    have hcat : categorizeToken "ETH" = Category.native := by decide
    have hnc : Category.native ≠ Category.stablecoin := by decide
    norm_num [preSortHoldings, enrichHolding, dustThreshold, hcat, abs_le,
      List.filter_cons, List.filter_nil, decide_eq_true_eq, if_neg hnc]

/-- Claim C1, amended: on a non-empty holdings list with positive total in which every
entry is either worthless (`valueUsd = 0`) or above the dust threshold, the retained
percentages sum to exactly 100, and so does `stablecoinPercentage +
volatilePercentage`; both are therefore within the claimed `1e-6` tolerance. -/
theorem percentage_sum_no_dust (hs : List InputHolding) (hne : hs ≠ [])
    (htot : 0 < (analyzePortfolio hs).totalValueUsd)
    (hdust : ∀ h ∈ hs, h.valueUsd = 0 ∨ dustThreshold < h.valueUsd) :
    |((analyzePortfolio hs).holdings.map (fun h => h.percentage)).sum - 100| ≤ 1 / 1000000 ∧
    |(analyzePortfolio hs).stablecoinPercentage + (analyzePortfolio hs).volatilePercentage
      - 100| ≤ 1 / 1000000 := by
  rw [analyzePortfolio_totalValueUsd] at htot
  have hfil : ((hs.filter (fun h => decide (dustThreshold < h.valueUsd))).map
      (fun h => h.valueUsd)).sum = (hs.map (fun h => h.valueUsd)).sum := by
    apply sum_map_filter_of_zero
    intro x hx hpx
    rcases hdust x hx with h0 | hgt
    · exact h0
    · exact absurd (decide_eq_true hgt) (by simp [hpx])
  have hpct : ((preSortHoldings hs).map (fun h => h.percentage)).sum = 100 := by
    rw [preSortHoldings, List.map_map]
    have hm : ((hs.filter (fun h => decide (dustThreshold < h.valueUsd))).map
          (fun h => (enrichHolding ((hs.map (fun h => h.valueUsd)).sum) h).percentage)) =
        (((hs.filter (fun h => decide (dustThreshold < h.valueUsd))).map
          (fun h => h.valueUsd)).map
            (fun x => x / (hs.map (fun h => h.valueUsd)).sum * 100)) := by
      rw [List.map_map]
      apply List.map_congr_left
      intro h _
      simp [enrichHolding, if_pos htot]
    show ((hs.filter (fun h => decide (dustThreshold < h.valueUsd))).map
        (fun h => (enrichHolding ((hs.map (fun h => h.valueUsd)).sum) h).percentage)).sum = 100
    rw [hm, sum_map_div_mul, hfil, div_self (ne_of_gt htot)]
    norm_num
  constructor
  · rw [analyzePortfolio_pctSum, hpct]
    norm_num
  · rw [analyzePortfolio_stablecoinPercentage, analyzePortfolio_volatilePercentage]
    have hsplit : (fun (h : PortfolioHolding) => decide (h.category ≠ Category.stablecoin)) =
        (fun h => !(decide (h.category = Category.stablecoin))) := by
      funext h
      simp [decide_not]
    rw [hsplit, sum_map_filter_add_not (fun h => decide (h.category = Category.stablecoin))
      (fun h => h.percentage) (preSortHoldings hs), hpct]
    norm_num

/-- Claim C1, witness: the amended hypotheses discharged on a concrete 80/20 portfolio. -/
theorem percentage_sum_no_dust_witness :
    |((analyzePortfolio [⟨"ETH", 1, (80 : ℚ)⟩, ⟨"USDC", 1, 20⟩]).holdings.map
        (fun h => h.percentage)).sum - 100| ≤ 1 / 1000000 :=
  (percentage_sum_no_dust [⟨"ETH", 1, (80 : ℚ)⟩, ⟨"USDC", 1, 20⟩] (by simp)
    (by rw [analyzePortfolio_totalValueUsd]; norm_num)
    (by norm_num [dustThreshold])).1

/-- Claim C9: `analyzePortfolio` computes `totalValueUsd` over the whole input before the
dust filter; with non-negative input values and at least one entry in `(0, 0.01]`, the
reported total strictly exceeds the sum of the returned holdings' values, and every
returned percentage is taken against that larger pre-filter total. -/
theorem total_prefilter (hs : List InputHolding)
    (hnn : ∀ h ∈ hs, 0 ≤ h.valueUsd) (h0 : InputHolding) (hmem0 : h0 ∈ hs)
    (hpos : 0 < h0.valueUsd) (hsmall : h0.valueUsd ≤ dustThreshold) :
    (analyzePortfolio hs).totalValueUsd = (hs.map (fun h => h.valueUsd)).sum ∧
    ((analyzePortfolio hs).holdings.map (fun h => h.valueUsd)).sum
      < (analyzePortfolio hs).totalValueUsd ∧
    ∀ h ∈ (analyzePortfolio hs).holdings,
      h.percentage = h.valueUsd / (analyzePortfolio hs).totalValueUsd * 100 := by
  have hsplit := sum_map_filter_add_not (fun h => decide (dustThreshold < h.valueUsd))
    (fun h => h.valueUsd) hs
  have hmemdrop : h0 ∈ hs.filter (fun h => !(decide (dustThreshold < h.valueUsd))) := by
    refine List.mem_filter.mpr ⟨hmem0, ?_⟩
    simp [not_lt.mpr hsmall]
  have hdroppos : 0 < ((hs.filter (fun h => !(decide (dustThreshold < h.valueUsd)))).map
      (fun h => h.valueUsd)).sum := by
    refine lt_of_lt_of_le hpos ?_
    apply List.single_le_sum
    · intro x hx
      obtain ⟨y, hy, rfl⟩ := List.mem_map.mp hx
      exact hnn y (List.mem_filter.mp hy).1
    · exact List.mem_map.mpr ⟨h0, hmemdrop, rfl⟩
  have hkeepnn : 0 ≤ ((hs.filter (fun h => decide (dustThreshold < h.valueUsd))).map
      (fun h => h.valueUsd)).sum := by
    apply List.sum_nonneg
    intro x hx
    obtain ⟨y, hy, rfl⟩ := List.mem_map.mp hx
    exact hnn y (List.mem_filter.mp hy).1
  have htot : 0 < (hs.map (fun h => h.valueUsd)).sum := by
    rw [← hsplit]
    exact add_pos_of_nonneg_of_pos hkeepnn hdroppos
  refine ⟨rfl, ?_, ?_⟩
  · rw [analyzePortfolio_valueSum, analyzePortfolio_totalValueUsd, ← hsplit]
    exact lt_add_of_pos_right _ hdroppos
  · intro h hmem
    have := analyzePortfolio_holdings_percentage hmem
    rw [analyzePortfolio_totalValueUsd] at this ⊢
    rw [this, if_pos htot]

/-- Claim C9, witness: the dust-entry hypotheses discharged on a concrete input holding a
100 USD position and a 0.005 USD dust entry. -/
theorem total_prefilter_witness :
    ((analyzePortfolio [⟨"ETH", 1, (100 : ℚ)⟩, ⟨"PEPE", 1, 1 / 200⟩]).holdings.map
        (fun h => h.valueUsd)).sum
      < (analyzePortfolio [⟨"ETH", 1, (100 : ℚ)⟩, ⟨"PEPE", 1, 1 / 200⟩]).totalValueUsd :=
  (total_prefilter [⟨"ETH", 1, (100 : ℚ)⟩, ⟨"PEPE", 1, 1 / 200⟩]
    (by norm_num) ⟨"PEPE", 1, 1 / 200⟩ (by simp) (by norm_num)
    (by norm_num [dustThreshold])).2.1

/-! ## Claim theorems: risk policy (C3, C4) -/

/-- Claim C3: `calculateRiskLevel` follows the ordered threshold policy with the first
match winning — `s ≥ 50` gives low; otherwise `s ≥ 30` without concentration gives
medium; otherwise `s ≥ 10` gives high; otherwise very-high — and in particular `s = 35`
with concentration yields high while `s = 5` yields very-high. -/
theorem calculateRiskLevel_policy :
    (∀ (s : ℚ) (c : Bool),
      (50 ≤ s → calculateRiskLevel s c = RiskLevel.low) ∧
      (s < 50 → 30 ≤ s → c = false → calculateRiskLevel s c = RiskLevel.medium) ∧
      (s < 50 → ¬(30 ≤ s ∧ c = false) → 10 ≤ s → calculateRiskLevel s c = RiskLevel.high) ∧
      (s < 50 → ¬(30 ≤ s ∧ c = false) → s < 10 →
        calculateRiskLevel s c = RiskLevel.veryHigh)) ∧
    calculateRiskLevel 35 true = RiskLevel.high ∧
    calculateRiskLevel 5 false = RiskLevel.veryHigh ∧
    calculateRiskLevel 5 true = RiskLevel.veryHigh := by
  refine ⟨fun s c => ⟨?_, ?_, ?_, ?_⟩, ?_, ?_, ?_⟩
  · intro h50
    rw [calculateRiskLevel, if_pos h50]
  · intro h50 h30 hc
    rw [calculateRiskLevel, if_neg (not_le.mpr h50), if_pos ⟨h30, hc⟩]
  · intro h50 hmed h10
    rw [calculateRiskLevel, if_neg (not_le.mpr h50), if_neg hmed, if_pos h10]
  · intro h50 hmed h10
    rw [calculateRiskLevel, if_neg (not_le.mpr h50), if_neg hmed, if_neg (not_le.mpr h10)]
  · norm_num [calculateRiskLevel]
  · norm_num [calculateRiskLevel]
  · norm_num [calculateRiskLevel]

/-- Claim C3, witness: each branch of the policy instantiated at a concrete input. -/
theorem calculateRiskLevel_policy_witness :
    calculateRiskLevel 55 true = RiskLevel.low ∧
    calculateRiskLevel 35 false = RiskLevel.medium ∧
    calculateRiskLevel 15 true = RiskLevel.high ∧
    calculateRiskLevel 5 true = RiskLevel.veryHigh :=
  ⟨(calculateRiskLevel_policy.1 55 true).1 (by norm_num),
   (calculateRiskLevel_policy.1 35 false).2.1 (by norm_num) (by norm_num) rfl,
   (calculateRiskLevel_policy.1 15 true).2.2.1 (by norm_num) (by simp) (by norm_num),
   (calculateRiskLevel_policy.1 5 true).2.2.2 (by norm_num) (by simp) (by norm_num)⟩

/-- Claim C4: the concentration flag is true exactly when some reported holding's
percentage strictly exceeds 50; a largest holding at exactly 50% leaves it false while
50.1% sets it true. -/
theorem concentrationRisk_iff :
    (∀ hs : List InputHolding,
      ((analyzePortfolio hs).concentrationRisk = true ↔
        ∃ h ∈ (analyzePortfolio hs).holdings, 50 < h.percentage)) ∧
    (analyzePortfolio [⟨"A", 1, 50⟩, ⟨"B", 1, 50⟩]).concentrationRisk = false ∧
    (analyzePortfolio [⟨"A", 1, 501⟩, ⟨"B", 1, 499⟩]).concentrationRisk = true := by
  refine ⟨fun hs => ?_, ?_, ?_⟩
  · have hrfl : (analyzePortfolio hs).concentrationRisk =
        (analyzePortfolio hs).holdings.any (fun h => decide (50 < h.percentage)) := rfl
    rw [hrfl, List.any_eq_true]
    simp
  · rw [analyzePortfolio_concentrationRisk]
    norm_num [preSortHoldings, enrichHolding, dustThreshold]
  · rw [analyzePortfolio_concentrationRisk]
    norm_num [preSortHoldings, enrichHolding, dustThreshold]

/-! ## Claim theorems: concentration and the top holding (C10) -/

/-- When the concentration flag is set, the holdings list is non-empty and its head (the
largest holding after the descending sort) itself exceeds 50%. Shared between the
top-holding safety claim and the advice-fallback claim. -/
theorem analyzePortfolio_concentration_head (hs : List InputHolding)
    (hc : (analyzePortfolio hs).concentrationRisk = true) :
    ∃ top rest, (analyzePortfolio hs).holdings = top :: rest ∧ 50 < top.percentage ∧
      ∀ h ∈ rest, h.valueUsd ≤ top.valueUsd := by
  have hany : ∃ h ∈ (analyzePortfolio hs).holdings, 50 < h.percentage := by
    have hrfl : (analyzePortfolio hs).concentrationRisk =
        (analyzePortfolio hs).holdings.any (fun h => decide (50 < h.percentage)) := rfl
    rw [hrfl, List.any_eq_true] at hc
    simpa using hc
  obtain ⟨h, hmem, h50⟩ := hany
  cases hl : (analyzePortfolio hs).holdings with
  | nil => rw [hl] at hmem; cases hmem
  | cons top rest =>
    have hsorted := analyzePortfolio_holdings_sorted hs
    rw [hl] at hsorted
    have hrest : ∀ x ∈ rest, x.valueUsd ≤ top.valueUsd := (List.pairwise_cons.mp hsorted).1
    have htoppos : 50 < top.percentage := by
      have htotpos : 0 < (analyzePortfolio hs).totalValueUsd := by
        by_contra hneg
        have hp := analyzePortfolio_holdings_percentage hmem
        rw [if_neg hneg] at hp
        rw [hp] at h50
        norm_num at h50
      have hh := analyzePortfolio_holdings_percentage hmem
      have htopmem : top ∈ (analyzePortfolio hs).holdings := by
        rw [hl]
        exact List.mem_cons_self top rest
      have htop := analyzePortfolio_holdings_percentage htopmem
      rw [if_pos htotpos] at hh htop
      rw [hl] at hmem
      rcases List.mem_cons.mp hmem with rfl | hmemrest
      · exact hh ▸ (hh ▸ h50)
      · have hvle : h.valueUsd ≤ top.valueUsd := hrest h hmemrest
        have hple : h.percentage ≤ top.percentage := by
          rw [hh, htop]
          exact mul_le_mul_of_nonneg_right
            ((div_le_div_iff_of_pos_right htotpos).mpr hvle) (by norm_num)
        exact lt_of_lt_of_le h50 hple
    exact ⟨top, rest, rfl, htoppos, hrest⟩

/-- Claim C10: whenever `analyzePortfolio` reports concentration risk, its holdings list
is non-empty and the first element — the largest by `valueUsd` after the descending
sort — has percentage above 50, so the fallback composer's access to the top holding
never reads a missing element. -/
theorem concentration_top_holding (hs : List InputHolding)
    (hc : (analyzePortfolio hs).concentrationRisk = true) :
    ∃ top rest, (analyzePortfolio hs).holdings = top :: rest ∧ 50 < top.percentage ∧
      ∀ h ∈ rest, h.valueUsd ≤ top.valueUsd :=
  analyzePortfolio_concentration_head hs hc

/-- Claim C10, witness: the concentration hypothesis discharged on a concrete 80/20
portfolio. -/
theorem concentration_top_holding_witness :
    ∃ top rest,
      (analyzePortfolio [⟨"A", 1, (80 : ℚ)⟩, ⟨"B", 1, 20⟩]).holdings = top :: rest ∧
      50 < top.percentage ∧ ∀ h ∈ rest, h.valueUsd ≤ top.valueUsd :=
  concentration_top_holding [⟨"A", 1, (80 : ℚ)⟩, ⟨"B", 1, 20⟩]
    (by
      rw [analyzePortfolio_concentrationRisk]
      norm_num [preSortHoldings, enrichHolding, dustThreshold])

/-! ## Claim theorems: dust filtering (C5) -/

/-- Claim C5, counterexample: the starknet-only branch maps every token balance to a
holding without any dust filter, so a `0.005` USD entry reaches the aggregation loop
(and survives it) — refuting "dropped before aggregation" for that path. -/
theorem dust_before_aggregation_counterexample :
    starknetBranchHoldings 2000 (fun _ => none) [⟨"0xabc", "USDC", 1 / 200⟩]
      = [⟨"USDC", 1 / 200, 1 / 200, none⟩] ∧
    (1 : ℚ) / 200 ≤ dustThreshold ∧
    (aggregatedHoldings (starknetBranchHoldings 2000 (fun _ => none)
        [⟨"0xabc", "USDC", 1 / 200⟩])).map (fun a => a.valueUsd) = [1 / 200] := by
  have hprice : starknetTokenPrice 2000 (fun _ => none) ⟨"0xabc", "USDC", 1 / 200⟩ = 1 := by
    decide
  refine ⟨?_, by norm_num [dustThreshold], ?_⟩
  · norm_num [starknetBranchHoldings, hprice]
  · norm_num [starknetBranchHoldings, hprice, aggregatedHoldings, aggregateStep]

/-- Claim C5, amended: dust entries are excluded before aggregation on the EVM paths
(`processEVMBalances` only emits holdings above the threshold), while the starknet-only
path forwards them to aggregation; in every case the final holdings list of the report
contains only entries above the 0.01 USD threshold, so a `0.005` USD holding never
appears in it. -/
theorem dust_filtering_final :
    (∀ (native : ℚ) (tokens : List EVMToken) (ethPrice : ℚ) (label : String),
      ∀ h ∈ processEVMBalances native tokens ethPrice label, dustThreshold < h.valueUsd) ∧
    (∀ hs : List InputHolding, ∀ h ∈ (analyzePortfolio hs).holdings,
      dustThreshold < h.valueUsd ∧ h.valueUsd ≠ 1 / 200) := by
  constructor
  · intro native tokens ethPrice label h hmem
    rcases List.mem_append.mp hmem with hn | ht
    · by_cases hc : dustThreshold < native * ethPrice
      · rw [if_pos hc] at hn
        obtain rfl : h = ⟨"ETH", native, native * ethPrice, some label⟩ := by simpa using hn
        exact hc
      · rw [if_neg hc] at hn
        cases hn
    · obtain ⟨t, _, hsome⟩ := List.mem_filterMap.mp ht
      by_cases hc : dustThreshold < t.formattedBalance * evmTokenPrice ethPrice t
      · simp only [if_pos hc] at hsome
        obtain rfl := Option.some_injective _ hsome
        exact hc
      · simp only [if_neg hc] at hsome
        cases hsome
  · intro hs h hmem
    have hd := analyzePortfolio_holdings_dust hmem
    refine ⟨hd, fun hc => ?_⟩
    rw [hc] at hd
    norm_num [dustThreshold] at hd

/-- Claim C5, witness: the membership hypothesis discharged on a concrete one-holding
portfolio. -/
theorem dust_filtering_final_witness :
    dustThreshold < (enrichHolding 100 ⟨"ETH", 1, 100⟩).valueUsd ∧
    (enrichHolding 100 ⟨"ETH", 1, 100⟩).valueUsd ≠ 1 / 200 :=
  dust_filtering_final.2 [⟨"ETH", 1, 100⟩] (enrichHolding 100 ⟨"ETH", 1, 100⟩)
    (mem_analyzePortfolio_holdings.mpr
      ⟨⟨"ETH", 1, 100⟩, by simp, by norm_num [dustThreshold], by norm_num⟩)

/-! ## Claim theorems: merged-symbol renaming (C8) -/

theorem space_mem_paren (s t : String) : ' ' ∈ (s ++ " (" ++ t ++ ")").data := by
  have h2 : (" (" : String).data = [' ', '('] := rfl
  simp [String.data_append, h2]

theorem no_space_tables :
    ∀ x ∈ stablecoinSymbols ++ nativeSymbols ++ defiSymbols, ' ' ∉ x.data := by decide

/-- A renamed multi-chain symbol contains a space, which no lookup-table ticker does, so
it always falls through to the `volatile` default. -/
theorem categorize_paren_volatile (s t : String) :
    categorizeToken (s ++ " (" ++ t ++ ")") = Category.volatile := by
  have hsp := space_mem_paren s t
  have h1 : (s ++ " (" ++ t ++ ")") ∉ stablecoinSymbols := fun hm =>
    no_space_tables _ (List.mem_append.mpr (Or.inl (List.mem_append.mpr (Or.inl hm)))) hsp
  have h2 : (s ++ " (" ++ t ++ ")") ∉ nativeSymbols := fun hm =>
    no_space_tables _ (List.mem_append.mpr (Or.inl (List.mem_append.mpr (Or.inr hm)))) hsp
  have h3 : (s ++ " (" ++ t ++ ")") ∉ defiSymbols := fun hm =>
    no_space_tables _ (List.mem_append.mpr (Or.inr hm)) hsp
  rw [categorizeToken, if_neg h1, if_neg h2, if_neg h3]

/-- Claim C8: a row merged from more than one chain gets the ticker with the joined chain
list appended, every such renamed symbol is categorized `volatile` (the lookup matches
the exact string), and on the concrete USDC ethereum+base pipeline the final row is
`"USDC (ethereum+base)"` with `stablecoinPercentage = 0` despite USDC being a recognized
stablecoin. -/
theorem merged_symbol_volatile :
    (∀ a : AggregatedHolding, 1 < a.chains.length →
      finalSymbol a = a.symbol ++ " (" ++ String.intercalate "+" a.chains ++ ")" ∧
      categorizeToken (finalSymbol a) = Category.volatile) ∧
    (finalHoldings (aggregatedHoldings
        [⟨"USDC", 100, 100, some "ethereum"⟩, ⟨"USDC", 50, 50, some "base"⟩])
      = [⟨"USDC (ethereum+base)", 150, 150⟩]) ∧
    (analyzePortfolio (finalHoldings (aggregatedHoldings
        [⟨"USDC", 100, 100, some "ethereum"⟩, ⟨"USDC", 50, 50, some "base"⟩]))
      ).stablecoinPercentage = 0 := by
  have hagg : aggregatedHoldings
      [⟨"USDC", 100, 100, some "ethereum"⟩, ⟨"USDC", 50, 50, some "base"⟩]
      = [⟨"USDC", 150, 150, ["ethereum", "base"]⟩] := by
    norm_num [aggregatedHoldings, aggregateStep, addChain]
    decide
  have hfin : finalHoldings (aggregatedHoldings
      [⟨"USDC", 100, 100, some "ethereum"⟩, ⟨"USDC", 50, 50, some "base"⟩])
      = [⟨"USDC (ethereum+base)", 150, 150⟩] := by
    rw [hagg]
    have hsym : finalSymbol ⟨"USDC", 150, 150, ["ethereum", "base"]⟩
        = "USDC (ethereum+base)" := by decide
    simp [finalHoldings, hsym]
  refine ⟨fun a hlen => ⟨?_, ?_⟩, hfin, ?_⟩
  · rw [finalSymbol, if_pos hlen]
  · rw [finalSymbol, if_pos hlen]
    exact categorize_paren_volatile _ _
  · rw [hfin, analyzePortfolio_stablecoinPercentage]
    have hcat : categorizeToken "USDC (ethereum+base)" = Category.volatile := by decide
    have hnc : Category.volatile ≠ Category.stablecoin := by decide
    norm_num [preSortHoldings, enrichHolding, dustThreshold, hcat, List.filter_cons,
      List.filter_nil, decide_eq_true_eq, if_neg hnc]

/-- Claim C8, witness: the multi-chain hypothesis discharged on the concrete merged USDC
row. -/
theorem merged_symbol_volatile_witness :
    categorizeToken (finalSymbol ⟨"USDC", 150, 150, ["ethereum", "base"]⟩)
      = Category.volatile :=
  (merged_symbol_volatile.1 ⟨"USDC", 150, 150, ["ethereum", "base"]⟩ (by norm_num)).2

/-! ## Claim theorems: advice fallback (C6) -/

theorem joinLines_cons (x : String) (xs : List String) :
    ∃ r : String, joinLines (x :: xs) = x ++ r := by
  cases xs with
  | nil => exact ⟨"", by simp [joinLines]⟩
  | cons y ys => exact ⟨"\n" ++ joinLines (y :: ys), by simp [joinLines, String.append_assoc]⟩

theorem append_ne_empty {a : String} (b : String) (ha : a ≠ "") : a ++ b ≠ "" := by
  intro hc
  apply ha
  apply String.ext
  have hd : a.data ++ b.data = [] := by
    have := congrArg String.data hc
    rwa [String.data_append] at this
  have hnil : a.data = [] := (List.append_eq_nil.mp hd).1
  rw [hnil]

theorem riskAssessmentLine_ne_empty (r : RiskLevel) : riskAssessmentLine r ≠ "" := by
  cases r <;> decide

/-- Claim C6: for every analysis produced by `analyzePortfolio` and any chain label, an
error from the external advice generator is caught and the deterministic fallback
composer runs; the caller receives a non-empty advice string that opens with the
risk-tier assessment line selected by the computed `riskLevel` (the four tier lines are
pairwise distinct, so the text identifies the risk level). -/
theorem advice_fallback_spec (hs : List InputHolding) (errMsg chainLbl : String) :
    ∃ s rest : String,
      generateAdvice (Except.error errMsg) chainLbl (analyzePortfolio hs) = some s ∧
      generateFallbackAdvice (analyzePortfolio hs) = some s ∧
      s = riskAssessmentLine (analyzePortfolio hs).riskLevel ++ rest ∧
      s ≠ "" := by
  have hadv : generateAdvice (Except.error errMsg) chainLbl (analyzePortfolio hs)
      = generateFallbackAdvice (analyzePortfolio hs) := rfl
  cases hconc : (analyzePortfolio hs).concentrationRisk with
  | false =>
    have hfb : generateFallbackAdvice (analyzePortfolio hs) =
        some (joinLines (riskAssessmentLine (analyzePortfolio hs).riskLevel ::
          (allocationLines (analyzePortfolio hs) ++
            actionItemLines (analyzePortfolio hs)))) := by
      unfold generateFallbackAdvice
      rw [hconc]
      simp
    obtain ⟨r, hr⟩ := joinLines_cons (riskAssessmentLine (analyzePortfolio hs).riskLevel)
      (allocationLines (analyzePortfolio hs) ++ actionItemLines (analyzePortfolio hs))
    refine ⟨_, r, by rw [hadv, hfb], hfb, hr, ?_⟩
    rw [hr]
    exact append_ne_empty r (riskAssessmentLine_ne_empty _)
  | true =>
    obtain ⟨top, rest0, hl, _, _⟩ := analyzePortfolio_concentration_head hs hconc
    have hfb : generateFallbackAdvice (analyzePortfolio hs) =
        some (joinLines (riskAssessmentLine (analyzePortfolio hs).riskLevel ::
          (concentrationAlertLine top ::
            (allocationLines (analyzePortfolio hs) ++
              actionItemLines (analyzePortfolio hs))))) := by
      unfold generateFallbackAdvice
      rw [hconc, hl]
      simp
    obtain ⟨r, hr⟩ := joinLines_cons (riskAssessmentLine (analyzePortfolio hs).riskLevel)
      (concentrationAlertLine top ::
        (allocationLines (analyzePortfolio hs) ++ actionItemLines (analyzePortfolio hs)))
    refine ⟨_, r, by rw [hadv, hfb], hfb, hr, ?_⟩
    rw [hr]
    exact append_ne_empty r (riskAssessmentLine_ne_empty _)

/-- Witness for the concentration-flag equivalence: on a concrete 80/20 portfolio the
flag is set and the equivalence produces the offending holding. -/
theorem concentrationRisk_iff_witness :
    ∃ h ∈ (analyzePortfolio [⟨"A", 1, (80 : ℚ)⟩, ⟨"B", 1, 20⟩]).holdings,
      50 < h.percentage :=
  (concentrationRisk_iff.1 [⟨"A", 1, (80 : ℚ)⟩, ⟨"B", 1, 20⟩]).mp
    (by
      rw [analyzePortfolio_concentrationRisk]
      norm_num [preSortHoldings, enrichHolding, dustThreshold])

/-- Witness for the advice-fallback claim at a concrete portfolio, error and label. -/
theorem advice_fallback_spec_witness :
    ∃ s rest : String,
      generateAdvice (Except.error "llm down") "ethereum"
        (analyzePortfolio [⟨"ETH", 1, (100 : ℚ)⟩]) = some s ∧
      generateFallbackAdvice (analyzePortfolio [⟨"ETH", 1, (100 : ℚ)⟩]) = some s ∧
      s = riskAssessmentLine (analyzePortfolio [⟨"ETH", 1, (100 : ℚ)⟩]).riskLevel ++ rest ∧
      s ≠ "" :=
  advice_fallback_spec [⟨"ETH", 1, (100 : ℚ)⟩] "llm down" "ethereum"
